import Mathlib

/-!
Verification of the OCR grid normalization and editing model of the
BlueGrid front-end (src/components/MatrixEditor.tsx and the application
shell).  The JavaScript/TypeScript code is shallowly embedded: strings
are lists of characters or `String`, JavaScript numbers appearing as
row/column indices are `Int`, confidence values are `Rat`, and the
nested `Map<number, Map<number, MatrixCell>>` lookup structure is a
function `Int → Int → Option MatrixCell` built by folding insertions in
list order.
-/

namespace BlueGrid

/-! ### Character classes used by the row-label regexes

`parseRowIndex` uses the JavaScript regexes `/Fila\s*(\d+)/i` and
`/^(\d+)$/`.  We model `\d` and `\s` as character predicates and the
case-insensitive flag by ASCII lower-casing of a code point. -/

/-- The digit class of the regex: characters between `0` and `9`. -/
def isDigitChar (c : Char) : Bool :=
  decide (48 ≤ c.toNat ∧ c.toNat ≤ 57)

/-- The whitespace class of the regex for the characters relevant here
(space, tab, line feed, vertical tab, form feed, carriage return). -/
def isSpaceChar (c : Char) : Bool :=
  c = ' ' || c = '\t' || c = '\n' || c = '\x0b' || c = '\x0c' || c = '\r'

/-- ASCII lower-casing on code points, modelling the `i` regex flag. -/
def lowerNat (c : Char) : Nat :=
  if 65 ≤ c.toNat ∧ c.toNat ≤ 90 then c.toNat + 32 else c.toNat

/-- Case-insensitive character comparison. -/
def ciEq (c d : Char) : Bool :=
  decide (lowerNat c = lowerNat d)

/-- Numeric value of a digit character. -/
def digitVal (c : Char) : Nat := c.toNat - 48

/-- Value of a digit string, as computed by `parseInt(s, 10)`. -/
def natOfDigits (ds : List Char) : Nat :=
  ds.foldl (fun a c => 10 * a + digitVal c) 0

/-- Drop the leading whitespace of a string: the greedy `\s*` step. -/
def skipSpaces : List Char → List Char
  | [] => []
  | c :: cs => if isSpaceChar c then skipSpaces cs else c :: cs

/-- Split off the maximal leading digit run: the greedy `(\d+)` capture,
together with the remainder of the string. -/
def takeDigits : List Char → List Char × List Char
  | [] => ([], [])
  | c :: cs =>
    if isDigitChar c then
      let p := takeDigits cs
      (c :: p.1, p.2)
    else ([], c :: cs)

/-- Try to match `Fila\s*(\d+)` (case-insensitively) at the head of the
string, returning the value of the captured digit run.  Backtracking
into `\s*` can never help because no whitespace character is a digit, so
the greedy reading is exact. -/
def matchFila : List Char → Option Nat
  | c1 :: c2 :: c3 :: c4 :: rest =>
    if ciEq c1 'f' && ciEq c2 'i' && ciEq c3 'l' && ciEq c4 'a' then
      let ds := (takeDigits (skipSpaces rest)).1
      if ds.isEmpty then none else some (natOfDigits ds)
    else none
  | _ => none

/-- Leftmost match of the unanchored regex `Fila\s*(\d+)` over the
string, as `String.prototype.match` finds it. -/
def findFila : List Char → Option Nat
  | [] => none
  | c :: cs =>
    match matchFila (c :: cs) with
    | some n => some n
    | none => findFila cs

/-- A row label is either a JavaScript number or a string
(`fila: string | number` in `types.ts`). -/
inductive RowLabel where
  | num (n : Int)
  | str (s : List Char)
deriving DecidableEq

/-- Embedding of `parseRowIndex` (MatrixEditor.tsx, lines 59-77):
numbers are returned as-is; a string matching `Fila\s*(\d+)` yields the
captured value minus one; a string of only digits yields its value
unchanged; anything else yields the sentinel `-1`. -/
def parseRowIndex : RowLabel → Int
  | .num n => n
  | .str s =>
    match findFila s with
    | some n => (n : Int) - 1
    | none =>
      if !s.isEmpty && s.all isDigitChar then (natOfDigits s : Int) else -1

/-- Embedding of `MatrixCell` from `types.ts`.  Optional fields are
`Option`; `col` is declared `number`. -/
structure MatrixCell where
  fila : RowLabel
  col : Int
  valor : String
  confianza : Rat
  ref_id : Option String
  recorte_base64 : Option String
  valor_original : Option String
deriving DecidableEq

/-! ### Grid construction (`gridRows`, MatrixEditor.tsx lines 80-113) -/

/-- The empty nested lookup map. -/
def emptyRowMap : Int → Int → Option MatrixCell := fun _ _ => none

/-- One step of the `cells.forEach` loop: map the cell under its parsed
row index and numeric column, but only when the parsed row fits the
fixed 5-row grid. -/
def insertCell (m : Int → Int → Option MatrixCell) (cell : MatrixCell) :
    Int → Int → Option MatrixCell :=
  fun r c =>
    if 0 ≤ parseRowIndex cell.fila ∧ parseRowIndex cell.fila < 5 then
      if r = parseRowIndex cell.fila ∧ c = cell.col then some cell else m r c
    else m r c

/-- The nested lookup map after processing all cells in list order. -/
def rowMap (cells : List MatrixCell) : Int → Int → Option MatrixCell :=
  cells.foldl insertCell emptyRowMap

/-- One row of the dense grid, as produced by `gridRows`. -/
structure GridRow where
  index : Nat
  columns : List (Option MatrixCell)
deriving DecidableEq

/-- Embedding of the `gridRows` memo: a dense 5-row structure whose row
`r` holds, for each column `0 ≤ c ≤ 4`, the mapped cell or `none`. -/
def gridRows (cells : List MatrixCell) : List GridRow :=
  (List.range 5).map fun (r : Nat) =>
    { index := r, columns := (List.range 5).map fun (c : Nat) => rowMap cells (r : Int) (c : Int) }

/-! ### Edit mutator (`handleValueChange`, MatrixEditor.tsx lines 115-132)

The source locates the first cell whose parsed row index and numeric
column match (`findIndex`), replaces only its `valor` via an object
spread, and otherwise appends a fresh cell with confidence `1.0` and no
reference id.  The recursion below performs exactly that first-match
replacement, appending at the end when no cell matches. -/

def handleValueChange (rowIndex colIndex : Int) (newValue : String) :
    List MatrixCell → List MatrixCell
  | [] => [{ fila := RowLabel.num rowIndex, col := colIndex, valor := newValue,
             confianza := 1, ref_id := none, recorte_base64 := none,
             valor_original := none }]
  | c :: cs =>
    if parseRowIndex c.fila = rowIndex ∧ c.col = colIndex then
      { c with valor := newValue } :: cs
    else
      c :: handleValueChange rowIndex colIndex newValue cs

/-! ### Confirmation path (`handleConfirm` / `handleValidationSave`) -/

/-- The body of the `PUT /api/v1/registros/{id}/validacion` request:
`handleConfirm` passes the full flat cell list to `onSave`, which is
`handleValidationSave`; it wraps it untouched as `cambios`. -/
structure ValidationPayload where
  cambios : List MatrixCell
  comentarios : String
deriving DecidableEq

/-- The payload built by `handleValidationSave` from the submitted
cells and the attribution string. -/
def validationPayload (cells : List MatrixCell) (username : String) :
    ValidationPayload :=
  { cambios := cells, comentarios := "Validado por " ++ username }

/-! ### Feedback serialization (`handleSendFeedback`, lines 144-180) -/

/-- One correction record of the training-feedback payload. -/
structure CorrectionRecord where
  ref_id : String
  valor_corregido : String
  fila : Int
  col : Int
  valor_original : String
deriving DecidableEq

/-- Embedding of the per-cell record constructor inside
`handleSendFeedback`: the snapshot cell with the same parsed (row,col)
is looked up with `find`, and `ref_id || ""` collapses a missing id to
the empty string. -/
def buildCorrection (originalCells : List MatrixCell) (currentCell : MatrixCell) :
    CorrectionRecord :=
  let rIndex := parseRowIndex currentCell.fila
  let cIndex := currentCell.col
  let originalCell := originalCells.find? fun oc =>
    decide (parseRowIndex oc.fila = rIndex ∧ oc.col = cIndex)
  { ref_id := currentCell.ref_id.getD ("")
    valor_corregido := currentCell.valor
    fila := rIndex
    col := cIndex
    valor_original :=
      match originalCell with
      | some oc => oc.valor
      | none => "" }

/-- The `corrections` array: one record per cell of the flat list. -/
def corrections (cells originalCells : List MatrixCell) : List CorrectionRecord :=
  cells.map (buildCorrection originalCells)

/-- The `validCorrections` array: the source filters with a predicate
that warns on a missing `ref_id` but always returns `true`. -/
def validCorrections (cells originalCells : List MatrixCell) : List CorrectionRecord :=
  (corrections cells originalCells).filter fun _ => true

/-- The full feedback payload (`zona_id` falls back to 1 when falsy,
`usuario_id` is the fixed 99). -/
structure FeedbackPayload where
  zona_id : Int
  usuario_id : Int
  correcciones : List CorrectionRecord
deriving DecidableEq

/-- Embedding of the payload assembly in `handleSendFeedback`. -/
def feedbackPayload (zonaId : Int) (cells originalCells : List MatrixCell) :
    FeedbackPayload :=
  { zona_id := if zonaId = 0 then 1 else zonaId
    usuario_id := 99
    correcciones := validCorrections cells originalCells }

/-! ### Application state and the validation-save flow (app shell) -/

/-- The `AppView` union of the application shell. -/
inductive AppView where
  | setup
  | upload
  | editor
  | success
deriving DecidableEq

/-- Notification severity. -/
inductive NotifType where
  | success
  | error
deriving DecidableEq

/-- The slice of the application state that `handleValidationSave`
reads or writes, together with the editor's flat cell list (owned by
`MatrixEditor` and passed to `onSave` as `validatedCells`). -/
structure AppState where
  view : AppView
  notification : Option (String × NotifType)
  successMsg : Option String
  ocrData : Option Int
  cells : List MatrixCell
deriving DecidableEq

/-- Outcome of the `fetch` of the validation-commit request. -/
inductive FetchOutcome where
  | ok
  | httpError (status : Nat) (body : String)
  | networkFailure (message : String)
deriving DecidableEq

/-- `String.prototype.includes`, used on the error message. -/
def strIncludes (hay needle : String) : Bool :=
  decide (needle.data <:+: hay.data)

/-- Embedding of `handleValidationSave` (app shell, lines 363-400): on
a missing document it returns immediately; on a 2xx response it notifies
success and moves the view to the terminal success state; on a non-2xx
response or a network failure it only sets an error notification built
from the thrown message. -/
def handleValidationSave (st : AppState) (outcome : FetchOutcome) : AppState :=
  match st.ocrData with
  | none => st
  | some _ =>
    match outcome with
    | .ok =>
      { st with
        notification := some ("Matriz validada y guardada correctamente", NotifType.success)
        view := AppView.success
        successMsg := some ("¡Matriz validada y guardada correctamente!") }
    | .httpError status body =>
      let raised := "Falló validación (" ++ toString status ++ "): " ++ body
      let displayMsg :=
        if strIncludes raised ("Failed to fetch") then ("Error de conexión.") else raised
      { st with notification := some ("Error al guardar: " ++ displayMsg, NotifType.error) }
    | .networkFailure message =>
      let displayMsg :=
        if strIncludes message ("Failed to fetch") then ("Error de conexión.") else message
      { st with notification := some ("Error al guardar: " ++ displayMsg, NotifType.error) }

/-! ### Low-confidence flag (render logic, lines 394-398 and 471-473) -/

/-- Embedding of `cell ? cell.confianza < 0.85 : false`. -/
def isLowConfidence : Option MatrixCell → Bool
  | some cell => decide (cell.confianza < 85 / 100)
  | none => false

/-! ### Derived predicates used in the statements -/

/-- Whether a cell claims the coordinate (r,c) once its row label is
parsed and its column compared numerically. -/
def cellMatches (r c : Int) (x : MatrixCell) : Bool :=
  decide (parseRowIndex x.fila = r ∧ x.col = c)

/-- The string contains a (case-insensitive) occurrence of the pattern
`Fila\s*\d+` somewhere. -/
def hasFilaPattern (s : List Char) : Prop :=
  ∃ pre f i l a ws ds post,
    s = pre ++ f :: i :: l :: a :: (ws ++ (ds ++ post)) ∧
    ciEq f 'f' = true ∧ ciEq i 'i' = true ∧ ciEq l 'l' = true ∧ ciEq a 'a' = true ∧
    (∀ c ∈ ws, isSpaceChar c = true) ∧ ds ≠ [] ∧ (∀ c ∈ ds, isDigitChar c = true)

/-! ### Concrete sample data used by the witnesses -/

/-- Sample out-of-range cell ("Fila 8" parses to row index 7). -/
def outCell : MatrixCell :=
  { fila := RowLabel.str ("Fila 8".data), col := 2, valor := "9", confianza := 1 / 2,
    ref_id := none, recorte_base64 := none, valor_original := none }

/-- Sample in-range cells used by the witnesses. -/
def cellA : MatrixCell :=
  { fila := RowLabel.str ("Fila 1".data), col := 0, valor := "5", confianza := 9 / 10,
    ref_id := some ("R0_C0"), recorte_base64 := none, valor_original := none }

def cellB : MatrixCell :=
  { fila := RowLabel.str ("Fila 2".data), col := 1, valor := "4", confianza := 3 / 5,
    ref_id := some ("R1_C1"), recorte_base64 := none, valor_original := none }

/-- A second cell claiming coordinate (0,0), later in list order than
`cellA` (which also parses to (0,0)). -/
def cellA2 : MatrixCell :=
  { fila := RowLabel.num 0, col := 0, valor := "8", confianza := 9 / 10,
    ref_id := some ("R0_C0b"), recorte_base64 := none, valor_original := none }

/-- Snapshot counterpart of `cellB` (same coordinate, the value the
OCR originally produced). -/
def cellB0 : MatrixCell :=
  { fila := RowLabel.str ("Fila 2".data), col := 1, valor := "5", confianza := 3 / 5,
    ref_id := some ("R1_C1"), recorte_base64 := none, valor_original := none }

/-- A concrete editor-stage application state. -/
def st0 : AppState :=
  { view := AppView.editor, notification := none, successMsg := none,
    ocrData := some 12, cells := [cellA, cellB] }

/-- A cell sitting exactly at the 0.85 threshold. -/
def cellBoundary : MatrixCell :=
  { fila := RowLabel.num 2, col := 2, valor := "5", confianza := 85 / 100,
    ref_id := none, recorte_base64 := none, valor_original := none }

/-- A cell just below the threshold. -/
def cellLow : MatrixCell :=
  { fila := RowLabel.num 2, col := 3, valor := "5", confianza := 84999 / 100000,
    ref_id := none, recorte_base64 := none, valor_original := none }

/-! ## Lemmas about the row-label parser -/

lemma digit_toNat_le {c : Char} (h : isDigitChar c = true) :
    48 ≤ c.toNat ∧ c.toNat ≤ 57 := by
  simpa [isDigitChar] using h

lemma lowerNat_of_digit {c : Char} (h : isDigitChar c = true) :
    lowerNat c = c.toNat := by
  obtain ⟨h1, h2⟩ := digit_toNat_le h
  have hnot : ¬(65 ≤ c.toNat ∧ c.toNat ≤ 90) := by omega
  simp [lowerNat, hnot]

lemma ciEq_f_of_digit {c : Char} (h : isDigitChar c = true) :
    ciEq c 'f' = false := by
  obtain ⟨h1, h2⟩ := digit_toNat_le h
  have hf : lowerNat 'f' = 102 := by decide
  simp only [ciEq, lowerNat_of_digit h, hf, decide_eq_false_iff_not]
  omega

lemma not_digit_of_space {c : Char} (h : isSpaceChar c = true) :
    isDigitChar c = false := by
  simp only [isSpaceChar, Bool.or_eq_true, decide_eq_true_eq] at h
  rcases h with ((((h | h) | h) | h) | h) | h <;> subst h <;> decide

lemma isSpaceChar_of_digit {c : Char} (h : isDigitChar c = true) :
    isSpaceChar c = false := by
  cases hs : isSpaceChar c
  · rfl
  · have hd := not_digit_of_space hs
    rw [h] at hd
    exact absurd hd (by decide)

lemma skipSpaces_append (ws rest : List Char)
    (h : ∀ c ∈ ws, isSpaceChar c = true) :
    skipSpaces (ws ++ rest) = skipSpaces rest := by
  induction ws with
  | nil => rfl
  | cons c cs ih =>
    have hc : isSpaceChar c = true := h c (List.mem_cons_self c cs)
    simp only [List.cons_append, skipSpaces, hc, if_true]
    exact ih fun x hx => h x (List.mem_cons_of_mem _ hx)

lemma skipSpaces_of_digits (ds : List Char)
    (h : ∀ c ∈ ds, isDigitChar c = true) : skipSpaces ds = ds := by
  cases ds with
  | nil => rfl
  | cons d tl =>
    have hd : isSpaceChar d = false := isSpaceChar_of_digit (h d (List.mem_cons_self d tl))
    simp [skipSpaces, hd]

lemma takeDigits_all (ds : List Char) (h : ∀ c ∈ ds, isDigitChar c = true) :
    takeDigits ds = (ds, []) := by
  induction ds with
  | nil => rfl
  | cons c cs ih =>
    have hc := h c (List.mem_cons_self c cs)
    simp [takeDigits, hc, ih fun x hx => h x (List.mem_cons_of_mem _ hx)]

lemma matchFila_of_form (f i l a : Char) (ws ds : List Char)
    (hf : ciEq f 'f' = true) (hi : ciEq i 'i' = true)
    (hl : ciEq l 'l' = true) (ha : ciEq a 'a' = true)
    (hws : ∀ c ∈ ws, isSpaceChar c = true)
    (hne : ds ≠ []) (hds : ∀ c ∈ ds, isDigitChar c = true) :
    matchFila (f :: i :: l :: a :: (ws ++ ds)) = some (natOfDigits ds) := by
  have h1 : skipSpaces (ws ++ ds) = ds :=
    (skipSpaces_append ws ds hws).trans (skipSpaces_of_digits ds hds)
  have h2 : takeDigits ds = (ds, []) := takeDigits_all ds hds
  have h3 : ds.isEmpty = false := by
    cases ds
    · exact absurd rfl hne
    · rfl
  simp [matchFila, hf, hi, hl, ha, h1, h2, h3]

lemma findFila_of_form (f i l a : Char) (ws ds : List Char)
    (hf : ciEq f 'f' = true) (hi : ciEq i 'i' = true)
    (hl : ciEq l 'l' = true) (ha : ciEq a 'a' = true)
    (hws : ∀ c ∈ ws, isSpaceChar c = true)
    (hne : ds ≠ []) (hds : ∀ c ∈ ds, isDigitChar c = true) :
    findFila (f :: i :: l :: a :: (ws ++ ds)) = some (natOfDigits ds) := by
  have hm := matchFila_of_form f i l a ws ds hf hi hl ha hws hne hds
  simp [findFila, hm]

lemma matchFila_of_head_digit (c : Char) (cs : List Char)
    (h : isDigitChar c = true) : matchFila (c :: cs) = none := by
  rcases cs with _ | ⟨c2, _ | ⟨c3, _ | ⟨c4, rest⟩⟩⟩
  · rfl
  · rfl
  · rfl
  · simp [matchFila, ciEq_f_of_digit h]

lemma findFila_of_all_digits (s : List Char)
    (h : ∀ c ∈ s, isDigitChar c = true) : findFila s = none := by
  induction s with
  | nil => rfl
  | cons c cs ih =>
    have hm := matchFila_of_head_digit c cs (h c (List.mem_cons_self c cs))
    have htl := ih fun x hx => h x (List.mem_cons_of_mem _ hx)
    simp [findFila, hm, htl]

/-! ## Lemmas about the grid builder -/

lemma rowMap_append_singleton (cells : List MatrixCell) (cell : MatrixCell) :
    rowMap (cells ++ [cell]) = insertCell (rowMap cells) cell := by
  simp [rowMap, List.foldl_append]

lemma rowMap_eq_some {cells : List MatrixCell} {r c : Int} {x : MatrixCell} :
    rowMap cells r c = some x →
    x ∈ cells ∧ parseRowIndex x.fila = r ∧ 0 ≤ r ∧ r < 5 ∧ x.col = c := by
  induction cells using List.reverseRecOn with
  | nil => intro h; exact absurd h (by simp [rowMap, emptyRowMap])
  | append_singleton cs cell ih =>
    intro h
    rw [rowMap_append_singleton] at h
    simp only [insertCell] at h
    by_cases hrange : 0 ≤ parseRowIndex cell.fila ∧ parseRowIndex cell.fila < 5
    · rw [if_pos hrange] at h
      by_cases hcoord : r = parseRowIndex cell.fila ∧ c = cell.col
      · rw [if_pos hcoord] at h
        injection h with h
        subst h
        exact ⟨List.mem_append_right _ (List.mem_cons_self _ _), hcoord.1.symm,
          hcoord.1 ▸ hrange.1, hcoord.1 ▸ hrange.2, hcoord.2.symm⟩
      · rw [if_neg hcoord] at h
        obtain ⟨hm, h2, h3, h4, h5⟩ := ih h
        exact ⟨List.mem_append_left _ hm, h2, h3, h4, h5⟩
    · rw [if_neg hrange] at h
      obtain ⟨hm, h2, h3, h4, h5⟩ := ih h
      exact ⟨List.mem_append_left _ hm, h2, h3, h4, h5⟩

lemma rowMap_eq_getLast_filter (cells : List MatrixCell) (r c : Int)
    (hr0 : 0 ≤ r) (hr5 : r < 5) :
    rowMap cells r c = (cells.filter (cellMatches r c)).getLast? := by
  induction cells using List.reverseRecOn with
  | nil => rfl
  | append_singleton cs cell ih =>
    rw [rowMap_append_singleton]
    simp only [insertCell]
    by_cases hrange : 0 ≤ parseRowIndex cell.fila ∧ parseRowIndex cell.fila < 5
    · rw [if_pos hrange]
      by_cases hcoord : r = parseRowIndex cell.fila ∧ c = cell.col
      · rw [if_pos hcoord]
        have hm : cellMatches r c cell = true := by
          simp [cellMatches, hcoord.1.symm, hcoord.2.symm]
        rw [List.filter_append]
        simp [hm, List.getLast?_concat]
      · rw [if_neg hcoord]
        have hm : cellMatches r c cell = false := by
          simp only [cellMatches, decide_eq_false_iff_not]
          rintro ⟨h1, h2⟩
          exact hcoord ⟨h1.symm, h2.symm⟩
        rw [List.filter_append]
        simp [hm, ih]
    · rw [if_neg hrange]
      have hm : cellMatches r c cell = false := by
        simp only [cellMatches, decide_eq_false_iff_not]
        rintro ⟨h1, h2⟩
        exact hrange ⟨h1 ▸ hr0, h1 ▸ hr5⟩
      rw [List.filter_append]
      simp [hm, ih]

lemma gridRows_entry (cells : List MatrixCell) (r c : Nat) (hr : r < 5) (hc : c < 5) :
    ∃ gr : GridRow, (gridRows cells)[r]? = some gr ∧ gr.index = r ∧
      gr.columns[c]? = some (rowMap cells (r : Int) (c : Int)) := by
  refine ⟨{ index := r, columns := (List.range 5).map fun (c : Nat) => rowMap cells (r : Int) (c : Int) },
    ?_, rfl, ?_⟩
  · rw [gridRows, List.getElem?_map, List.getElem?_range hr, Option.map_some']
  · rw [List.getElem?_map, List.getElem?_range hc, Option.map_some']

lemma grid_entry_some {cells : List MatrixCell} {gr : GridRow} {o : Option MatrixCell}
    {x : MatrixCell} (hgr : gr ∈ gridRows cells) (ho : o ∈ gr.columns)
    (hx : o = some x) :
    x ∈ cells ∧ 0 ≤ parseRowIndex x.fila ∧ parseRowIndex x.fila < 5 ∧
      rowMap cells (parseRowIndex x.fila) x.col = some x := by
  subst hx
  simp only [gridRows, List.mem_map, List.mem_range] at hgr
  obtain ⟨r, hr5, rfl⟩ := hgr
  simp only [List.mem_map, List.mem_range] at ho
  obtain ⟨c, hc5, hoc⟩ := ho
  obtain ⟨hm, hparse, hge, hlt, hcol⟩ := rowMap_eq_some hoc
  refine ⟨hm, hparse ▸ hge, hparse ▸ hlt, ?_⟩
  rw [hparse, hcol]
  exact hoc

/-! ## Claim theorems -/

/-- C1: the row-label parser maps every string of the form "Fila N"
(case-insensitive letters, optional whitespace, nonempty digit run N)
to N−1, maps every string consisting only of digits to its value
unchanged (not decremented), and returns numeric input as-is; in
particular "Fila 1" parses to 0 while "3" parses to 3. -/
theorem c1_row_label_parse :
    (∀ (f i l a : Char) (ws ds : List Char),
      ciEq f 'f' = true → ciEq i 'i' = true → ciEq l 'l' = true → ciEq a 'a' = true →
      (∀ c ∈ ws, isSpaceChar c = true) → ds ≠ [] → (∀ c ∈ ds, isDigitChar c = true) →
      parseRowIndex (RowLabel.str (f :: i :: l :: a :: (ws ++ ds))) = (natOfDigits ds : Int) - 1) ∧
    (∀ ds : List Char, ds ≠ [] → (∀ c ∈ ds, isDigitChar c = true) →
      parseRowIndex (RowLabel.str ds) = (natOfDigits ds : Int)) ∧
    (∀ n : Int, parseRowIndex (RowLabel.num n) = n) ∧
    parseRowIndex (RowLabel.str ("Fila 1".data)) = 0 ∧
    parseRowIndex (RowLabel.str ("3".data)) = 3 := by
  refine ⟨?_, ?_, fun n => rfl, by decide, by decide⟩
  · intro f i l a ws ds hf hi hl ha hws hne hds
    have hm := findFila_of_form f i l a ws ds hf hi hl ha hws hne hds
    simp [parseRowIndex, hm]
  · intro ds hne hds
    have h0 := findFila_of_all_digits ds hds
    have h1 : ds.all isDigitChar = true := List.all_eq_true.mpr hds
    have h2 : ds.isEmpty = false := by
      cases ds
      · exact absurd rfl hne
      · rfl
    simp [parseRowIndex, h0, h1, h2]

/-- Witness for C1: the universally quantified parts applied at the
concrete labels "Fila 2" and "7". -/
theorem c1_row_label_parse_witness :
    parseRowIndex (RowLabel.str ('F' :: 'i' :: 'l' :: 'a' :: ([' '] ++ ['2']))) =
      (natOfDigits ['2'] : Int) - 1 ∧
    parseRowIndex (RowLabel.str ['7']) = (natOfDigits ['7'] : Int) :=
  ⟨c1_row_label_parse.1 'F' 'i' 'l' 'a' [' '] ['2'] (by decide) (by decide) (by decide)
      (by decide) (by decide) (by decide) (by decide),
    c1_row_label_parse.2.1 ['7'] (by decide) (by decide)⟩

/-- C2: a cell whose parsed row index falls outside [0,4] appears in
none of the 5 dense rows built by the grid builder, while that same
cell is still present, unmodified, in the flat list that the confirm
serialization submits as `cambios`. -/
theorem c2_out_of_range_excluded_but_submitted :
    ∀ (cells : List MatrixCell) (cell : MatrixCell), cell ∈ cells →
    ¬(0 ≤ parseRowIndex cell.fila ∧ parseRowIndex cell.fila < 5) →
    (∀ gr ∈ gridRows cells, ∀ o ∈ gr.columns, o ≠ some cell) ∧
    (∀ username, cell ∈ (validationPayload cells username).cambios) := by
  intro cells cell hmem hout
  refine ⟨?_, fun _ => hmem⟩
  intro gr hgr o ho hcontra
  obtain ⟨_, hge, hlt, _⟩ := grid_entry_some hgr ho hcontra
  exact hout ⟨hge, hlt⟩

/-- Witness for C2 at a one-cell list whose only cell is out of range. -/
theorem c2_out_of_range_excluded_but_submitted_witness :
    outCell ∈ [outCell] ∧
    ¬(0 ≤ parseRowIndex outCell.fila ∧ parseRowIndex outCell.fila < 5) ∧
    ((∀ gr ∈ gridRows [outCell], ∀ o ∈ gr.columns, o ≠ some outCell) ∧
      (∀ username, outCell ∈ (validationPayload [outCell] username).cambios)) :=
  ⟨List.mem_cons_self _ _, by decide,
    c2_out_of_range_excluded_but_submitted [outCell] outCell (List.mem_cons_self _ _) (by decide)⟩

/-! ## Lemmas about the edit mutator -/

lemma handleValueChange_found (r c : Int) (v : String) :
    ∀ (pre : List MatrixCell) (cell : MatrixCell) (post : List MatrixCell),
    (∀ x ∈ pre, ¬(parseRowIndex x.fila = r ∧ x.col = c)) →
    parseRowIndex cell.fila = r → cell.col = c →
    handleValueChange r c v (pre ++ cell :: post) =
      pre ++ { cell with valor := v } :: post := by
  intro pre
  induction pre with
  | nil =>
    intro cell post _ hr hc
    simp [handleValueChange, hr, hc]
  | cons y ys ih =>
    intro cell post hpre hr hc
    have hy : ¬(parseRowIndex y.fila = r ∧ y.col = c) := hpre y (List.mem_cons_self _ _)
    simp only [List.cons_append, handleValueChange, if_neg hy, List.cons.injEq, true_and]
    exact ih cell post (fun x hx => hpre x (List.mem_cons_of_mem _ hx)) hr hc

lemma handleValueChange_notFound (r c : Int) (v : String) :
    ∀ cells : List MatrixCell,
    (∀ x ∈ cells, ¬(parseRowIndex x.fila = r ∧ x.col = c)) →
    handleValueChange r c v cells =
      cells ++ [{ fila := RowLabel.num r, col := c, valor := v, confianza := 1,
                  ref_id := none, recorte_base64 := none, valor_original := none }] := by
  intro cells
  induction cells with
  | nil => intro _; rfl
  | cons y ys ih =>
    intro h
    have hy := h y (List.mem_cons_self _ _)
    simp only [handleValueChange, if_neg hy, List.cons_append, List.cons.injEq, true_and]
    exact ih fun x hx => h x (List.mem_cons_of_mem _ hx)

/-- C3: editing the value at a coordinate held by an existing cell
(the first cell whose parsed row and numeric column match) replaces
only that cell's `valor`; its row label representation, column,
confidence, reference id and remaining fields are unchanged, and every
other cell of the list is unchanged. -/
theorem c3_edit_preserves_other_fields :
    ∀ (pre : List MatrixCell) (cell : MatrixCell) (post : List MatrixCell)
      (r c : Int) (v : String),
    (∀ x ∈ pre, ¬(parseRowIndex x.fila = r ∧ x.col = c)) →
    parseRowIndex cell.fila = r → cell.col = c →
    handleValueChange r c v (pre ++ cell :: post) =
      pre ++ { fila := cell.fila, col := cell.col, valor := v,
               confianza := cell.confianza, ref_id := cell.ref_id,
               recorte_base64 := cell.recorte_base64,
               valor_original := cell.valor_original } :: post := by
  intro pre cell post r c v hpre hr hc
  exact handleValueChange_found r c v pre cell post hpre hr hc

/-- Witness for C3: editing (1,1) in `[cellA, cellB]` rewrites only
`cellB.valor`. -/
theorem c3_edit_preserves_other_fields_witness :
    (∀ x ∈ [cellA], ¬(parseRowIndex x.fila = 1 ∧ x.col = 1)) ∧
    parseRowIndex cellB.fila = 1 ∧ cellB.col = 1 ∧
    handleValueChange 1 1 ("7") ([cellA] ++ cellB :: []) =
      [cellA] ++ { fila := cellB.fila, col := cellB.col, valor := "7",
                   confianza := cellB.confianza, ref_id := cellB.ref_id,
                   recorte_base64 := cellB.recorte_base64,
                   valor_original := cellB.valor_original } :: [] :=
  ⟨by decide, by decide, by decide,
    c3_edit_preserves_other_fields [cellA] cellB [] 1 1 ("7") (by decide) (by decide) (by decide)⟩

/-- C6: when no cell of the list claims the parsed coordinate (r,c),
the edit mutator appends exactly one new cell carrying the zero-based
integer row label `r`, column `c`, the new value, confidence 1.0 and no
reference id, leaving every existing cell unchanged. -/
theorem c6_edit_appends_fresh_cell :
    ∀ (cells : List MatrixCell) (r c : Int) (v : String),
    (∀ x ∈ cells, ¬(parseRowIndex x.fila = r ∧ x.col = c)) →
    handleValueChange r c v cells =
      cells ++ [{ fila := RowLabel.num r, col := c, valor := v, confianza := 1,
                  ref_id := none, recorte_base64 := none, valor_original := none }] := by
  intro cells r c v h
  exact handleValueChange_notFound r c v cells h

/-- Witness for C6: editing the unoccupied coordinate (3,4). -/
theorem c6_edit_appends_fresh_cell_witness :
    (∀ x ∈ [cellA, cellB], ¬(parseRowIndex x.fila = 3 ∧ x.col = 4)) ∧
    handleValueChange 3 4 ("X") [cellA, cellB] =
      [cellA, cellB] ++ [{ fila := RowLabel.num 3, col := 4, valor := "X", confianza := 1,
                           ref_id := none, recorte_base64 := none, valor_original := none }] :=
  ⟨by decide, c6_edit_appends_fresh_cell [cellA, cellB] 3 4 ("X") (by decide)⟩

/-- C5: when several cells of the flat list claim the same in-range
parsed coordinate (r,c), the dense grid holds the cell occurring last
in list order at position (r,c), and an earlier duplicate distinct from
it appears at no grid position at all. -/
theorem c5_last_write_wins :
    ∀ (cells : List MatrixCell) (r c : Int) (e : MatrixCell),
    0 ≤ r → r < 5 → 0 ≤ c → c < 5 →
    e ∈ cells.filter (cellMatches r c) →
    ∃ lw, (cells.filter (cellMatches r c)).getLast? = some lw ∧
      (∃ gr, (gridRows cells)[r.toNat]? = some gr ∧ gr.index = r.toNat ∧
        gr.columns[c.toNat]? = some (some lw)) ∧
      (e ≠ lw → ∀ gr ∈ gridRows cells, ∀ o ∈ gr.columns, o ≠ some e) := by
  intro cells r c e hr0 hr5 hc0 hc5 he
  have hnil : cells.filter (cellMatches r c) ≠ [] := List.ne_nil_of_mem he
  obtain ⟨lw, hlw⟩ : ∃ lw, (cells.filter (cellMatches r c)).getLast? = some lw := by
    cases h : (cells.filter (cellMatches r c)).getLast? with
    | none => exact absurd (List.getLast?_eq_none_iff.mp h) hnil
    | some x => exact ⟨x, rfl⟩
  have hrm : rowMap cells r c = some lw := by
    rw [rowMap_eq_getLast_filter cells r c hr0 hr5, hlw]
  refine ⟨lw, hlw, ?_, ?_⟩
  · obtain ⟨gr, h1, h2, h3⟩ := gridRows_entry cells r.toNat c.toNat (by omega) (by omega)
    refine ⟨gr, h1, h2, ?_⟩
    rw [h3, Int.toNat_of_nonneg hr0, Int.toNat_of_nonneg hc0, hrm]
  · intro hne gr hgr o ho hcontra
    obtain ⟨_, _, _, hrm2⟩ := grid_entry_some hgr ho hcontra
    have hmatch : parseRowIndex e.fila = r ∧ e.col = c := by
      have h2 := (List.mem_filter.mp he).2
      simpa [cellMatches] using h2
    rw [hmatch.1, hmatch.2, hrm] at hrm2
    exact hne (Option.some.inj hrm2).symm

/-- Witness for C5: duplicates of coordinate (0,0) in `[cellA, cellA2]`. -/
theorem c5_last_write_wins_witness :
    cellA ∈ [cellA, cellA2].filter (cellMatches 0 0) ∧
    ∃ lw, ([cellA, cellA2].filter (cellMatches 0 0)).getLast? = some lw ∧
      (∃ gr, (gridRows [cellA, cellA2])[(0 : Int).toNat]? = some gr ∧
        gr.index = (0 : Int).toNat ∧
        gr.columns[(0 : Int).toNat]? = some (some lw)) ∧
      (cellA ≠ lw → ∀ gr ∈ gridRows [cellA, cellA2], ∀ o ∈ gr.columns, o ≠ some cellA) := by
  have hmem : cellA ∈ [cellA, cellA2].filter (cellMatches 0 0) := by
    have h : [cellA, cellA2].filter (cellMatches 0 0) = [cellA, cellA2] := rfl
    rw [h]
    exact List.mem_cons_self _ _
  exact ⟨hmem, c5_last_write_wins [cellA, cellA2] 0 0 cellA (by decide) (by decide)
    (by decide) (by decide) hmem⟩

/-- First-occurrence decomposition of a list around a predicate. -/
lemma first_match_decomp {α : Type} (p : α → Prop) :
    ∀ l : List α, (∃ x ∈ l, p x) →
    ∃ pre y post, l = pre ++ y :: post ∧ (∀ z ∈ pre, ¬ p z) ∧ p y := by
  intro l
  induction l with
  | nil => rintro ⟨x, hx, -⟩; cases hx
  | cons a tl ih =>
    intro h
    by_cases ha : p a
    · exact ⟨[], a, tl, rfl, by simp, ha⟩
    · obtain ⟨x, hx, hpx⟩ := h
      rcases List.mem_cons.mp hx with rfl | hx2
      · exact absurd hpx ha
      · obtain ⟨pre, y, post, heq, hpre, hy⟩ := ih ⟨x, hx2, hpx⟩
        refine ⟨a :: pre, y, post, by rw [heq, List.cons_append], ?_, hy⟩
        intro z hz
        rcases List.mem_cons.mp hz with rfl | hz2
        · exact ha
        · exact hpre z hz2

/-- C10: on a flat list with pairwise-distinct parsed coordinates,
performing an edit at an in-range coordinate (r,c) and rebuilding the
dense grid yields, at position (r,c), a cell holding the edited value. -/
theorem c10_edit_then_rebuild :
    ∀ (cells : List MatrixCell) (r c : Int) (v : String),
    List.Pairwise
      (fun x y => ¬(parseRowIndex x.fila = parseRowIndex y.fila ∧ x.col = y.col)) cells →
    0 ≤ r → r < 5 → 0 ≤ c → c < 5 →
    ∃ gr cellNew, (gridRows (handleValueChange r c v cells))[r.toNat]? = some gr ∧
      gr.index = r.toNat ∧ gr.columns[c.toNat]? = some (some cellNew) ∧
      cellNew.valor = v := by
  intro cells r c v hpw hr0 hr5 hc0 hc5
  have key : ∃ k, ((handleValueChange r c v cells).filter (cellMatches r c)).getLast? =
      some k ∧ k.valor = v := by
    by_cases hex : ∃ x ∈ cells, parseRowIndex x.fila = r ∧ x.col = c
    · obtain ⟨pre, cell, post, heq, hpre, hcell⟩ :=
        first_match_decomp (fun x => parseRowIndex x.fila = r ∧ x.col = c) cells hex
      subst heq
      rw [handleValueChange_found r c v pre cell post hpre hcell.1 hcell.2]
      have hpre0 : pre.filter (cellMatches r c) = [] := by
        rw [List.filter_eq_nil_iff]
        intro a ha
        simp only [cellMatches, decide_eq_true_eq]
        exact hpre a ha
      have hpost0 : post.filter (cellMatches r c) = [] := by
        rw [List.filter_eq_nil_iff]
        intro a ha
        have hcross : ¬(parseRowIndex cell.fila = parseRowIndex a.fila ∧
            cell.col = a.col) :=
          (List.pairwise_cons.mp (List.pairwise_append.mp hpw).2.1).1 a ha
        simp only [cellMatches, decide_eq_true_eq]
        rintro ⟨h1, h2⟩
        exact hcross ⟨hcell.1.trans h1.symm, hcell.2.trans h2.symm⟩
      have hmatch : cellMatches r c { cell with valor := v } = true := by
        simp [cellMatches, hcell.1, hcell.2]
      refine ⟨{ cell with valor := v }, ?_, rfl⟩
      rw [List.filter_append, hpre0, List.filter_cons, hmatch, hpost0]
      simp
    · push_neg at hex
      rw [handleValueChange_notFound r c v cells fun x hx h => (hex x hx) h.1 h.2]
      have hfil : cells.filter (cellMatches r c) = [] := by
        rw [List.filter_eq_nil_iff]
        intro a ha
        simp only [cellMatches, decide_eq_true_eq]
        rintro ⟨h1, h2⟩
        exact hex a ha h1 h2
      have hnew : cellMatches r c
          { fila := RowLabel.num r, col := c, valor := v, confianza := 1,
            ref_id := none, recorte_base64 := none,
            valor_original := (none : Option String) } = true := by
        simp [cellMatches, parseRowIndex]
      refine ⟨({ fila := RowLabel.num r, col := c, valor := v, confianza := 1, ref_id := none, recorte_base64 := none, valor_original := none } : MatrixCell), ?_, rfl⟩
      rw [List.filter_append, hfil, List.filter_cons, hnew]
      simp
  obtain ⟨k, hk, hkv⟩ := key
  have hrm : rowMap (handleValueChange r c v cells) r c = some k := by
    rw [rowMap_eq_getLast_filter _ r c hr0 hr5, hk]
  obtain ⟨gr, h1, h2, h3⟩ := gridRows_entry (handleValueChange r c v cells)
    r.toNat c.toNat (by omega) (by omega)
  refine ⟨gr, k, h1, h2, ?_, hkv⟩
  rw [h3, Int.toNat_of_nonneg hr0, Int.toNat_of_nonneg hc0, hrm]

/-- Witness for C10 on `[cellA, cellB]` (distinct parsed coordinates). -/
theorem c10_edit_then_rebuild_witness :
    List.Pairwise
      (fun x y => ¬(parseRowIndex x.fila = parseRowIndex y.fila ∧ x.col = y.col))
      [cellA, cellB] ∧
    ∃ gr cellNew,
      (gridRows (handleValueChange 1 1 ("6") [cellA, cellB]))[(1 : Int).toNat]? = some gr ∧
      gr.index = (1 : Int).toNat ∧
      gr.columns[(1 : Int).toNat]? = some (some cellNew) ∧ cellNew.valor = "6" :=
  ⟨by decide, c10_edit_then_rebuild [cellA, cellB] 1 1 ("6") (by decide) (by decide)
    (by decide) (by decide) (by decide)⟩

/-- C4: the feedback serializer emits exactly one correction record per
cell of the flat list (nothing is filtered out, whatever the reference
id), with `ref_id` always present (empty string when absent),
`valor_corregido` the current value, parsed indices, and
`valor_original` the value of the first snapshot cell at the same
parsed coordinate, or the empty string if no snapshot cell matches. -/
theorem c4_feedback_serialization :
    ∀ (cells originalCells : List MatrixCell),
    (validCorrections cells originalCells).length = cells.length ∧
    ∀ (idx : Nat) (cell : MatrixCell), cells[idx]? = some cell →
      ∃ rec : CorrectionRecord, (validCorrections cells originalCells)[idx]? = some rec ∧
        rec.ref_id = cell.ref_id.getD ("") ∧
        rec.valor_corregido = cell.valor ∧
        rec.fila = parseRowIndex cell.fila ∧
        rec.col = cell.col ∧
        ((∀ oc ∈ originalCells,
            ¬(parseRowIndex oc.fila = parseRowIndex cell.fila ∧ oc.col = cell.col)) →
          rec.valor_original = "") ∧
        (∀ pre oc post, originalCells = pre ++ oc :: post →
          (∀ y ∈ pre, ¬(parseRowIndex y.fila = parseRowIndex cell.fila ∧ y.col = cell.col)) →
          parseRowIndex oc.fila = parseRowIndex cell.fila → oc.col = cell.col →
          rec.valor_original = oc.valor) := by
  intro cells originalCells
  have hkeep : validCorrections cells originalCells = corrections cells originalCells :=
    List.filter_eq_self.mpr fun _ _ => rfl
  constructor
  · rw [hkeep, corrections, List.length_map]
  · intro idx cell hidx
    refine ⟨buildCorrection originalCells cell, ?_, rfl, rfl, rfl, rfl, ?_, ?_⟩
    · rw [hkeep, corrections, List.getElem?_map, hidx, Option.map_some']
    · intro hnone
      have hf : originalCells.find? (fun oc =>
          decide (parseRowIndex oc.fila = parseRowIndex cell.fila ∧ oc.col = cell.col)) =
          none := by
        rw [List.find?_eq_none]
        intro oc hoc
        simpa using hnone oc hoc
      have hv : (buildCorrection originalCells cell).valor_original =
          match originalCells.find? (fun oc =>
            decide (parseRowIndex oc.fila = parseRowIndex cell.fila ∧ oc.col = cell.col)) with
          | some oc => oc.valor
          | none => "" := rfl
      rw [hv, hf]
    · intro pre oc post horig hpre h1 h2
      have hf : originalCells.find? (fun oc =>
          decide (parseRowIndex oc.fila = parseRowIndex cell.fila ∧ oc.col = cell.col)) =
          some oc := by
        rw [horig, List.find?_append]
        have hp : pre.find? (fun oc =>
            decide (parseRowIndex oc.fila = parseRowIndex cell.fila ∧ oc.col = cell.col)) =
            none := by
          rw [List.find?_eq_none]
          intro y hy
          simpa using hpre y hy
        rw [hp, List.find?_cons_of_pos _ (by simp [h1, h2]), Option.none_or]
      have hv : (buildCorrection originalCells cell).valor_original =
          match originalCells.find? (fun ocx =>
            decide (parseRowIndex ocx.fila = parseRowIndex cell.fila ∧ ocx.col = cell.col)) with
          | some ocx => ocx.valor
          | none => "" := rfl
      rw [hv, hf]

/-- Witness for C4: a current list `[cellB]` (edited value "4") against
a snapshot `[cellB0]` (original value "5"). -/
theorem c4_feedback_serialization_witness :
    ([cellB] : List MatrixCell)[0]? = some cellB ∧
    ∃ rec : CorrectionRecord, (validCorrections [cellB] [cellB0])[0]? = some rec ∧
      rec.ref_id = cellB.ref_id.getD ("") ∧
      rec.valor_corregido = cellB.valor ∧
      rec.fila = parseRowIndex cellB.fila ∧
      rec.col = cellB.col ∧
      ((∀ oc ∈ [cellB0],
          ¬(parseRowIndex oc.fila = parseRowIndex cellB.fila ∧ oc.col = cellB.col)) →
        rec.valor_original = "") ∧
      (∀ pre oc post, [cellB0] = pre ++ oc :: post →
        (∀ y ∈ pre, ¬(parseRowIndex y.fila = parseRowIndex cellB.fila ∧ y.col = cellB.col)) →
        parseRowIndex oc.fila = parseRowIndex cellB.fila → oc.col = cellB.col →
        rec.valor_original = oc.valor) :=
  ⟨rfl, (c4_feedback_serialization [cellB] [cellB0]).2 0 cellB rfl⟩

/-- C7: a failed validation-commit (non-2xx or network failure) only
surfaces an error notification; the view does not transition, the flat
cell list is untouched, and therefore the derived grid and the payload
a retried confirm would submit are unchanged. -/
theorem c7_confirm_failure_leaves_state :
    ∀ (st : AppState) (outcome : FetchOutcome),
    st.ocrData ≠ none → outcome ≠ FetchOutcome.ok →
    (∃ m, (handleValidationSave st outcome).notification = some (m, NotifType.error)) ∧
    (handleValidationSave st outcome).view = st.view ∧
    (handleValidationSave st outcome).cells = st.cells ∧
    gridRows (handleValidationSave st outcome).cells = gridRows st.cells ∧
    ∀ username, validationPayload (handleValidationSave st outcome).cells username =
      validationPayload st.cells username := by
  intro st outcome hocr hfail
  obtain ⟨v, notif, smsg, od, cls⟩ := st
  obtain ⟨d, hd⟩ : ∃ d, od = some d := by
    cases hh : od with
    | none => exact absurd hh hocr
    | some d => exact ⟨d, rfl⟩
  subst hd
  cases outcome with
  | ok => exact absurd rfl hfail
  | httpError status body => exact ⟨⟨_, rfl⟩, rfl, rfl, rfl, fun _ => rfl⟩
  | networkFailure message => exact ⟨⟨_, rfl⟩, rfl, rfl, rfl, fun _ => rfl⟩

/-- Witness for C7: a 500 response against the concrete state `st0`. -/
theorem c7_confirm_failure_leaves_state_witness :
    st0.ocrData ≠ none ∧ FetchOutcome.httpError 500 ("boom") ≠ FetchOutcome.ok ∧
    ((∃ m, (handleValidationSave st0 (FetchOutcome.httpError 500 ("boom"))).notification =
        some (m, NotifType.error)) ∧
      (handleValidationSave st0 (FetchOutcome.httpError 500 ("boom"))).view = st0.view ∧
      (handleValidationSave st0 (FetchOutcome.httpError 500 ("boom"))).cells = st0.cells ∧
      gridRows (handleValidationSave st0 (FetchOutcome.httpError 500 ("boom"))).cells =
        gridRows st0.cells ∧
      ∀ username, validationPayload
          (handleValidationSave st0 (FetchOutcome.httpError 500 ("boom"))).cells username =
        validationPayload st0.cells username) :=
  ⟨by decide, by decide,
    c7_confirm_failure_leaves_state st0 (FetchOutcome.httpError 500 ("boom"))
      (by decide) (by decide)⟩

/-- C8: a cell is flagged low-confidence exactly when its confidence is
strictly below 0.85; confidence exactly 0.85 is not flagged, 0.84999 is
flagged, and an empty grid slot is never flagged. -/
theorem c8_low_confidence_strict_threshold :
    (∀ cell : MatrixCell, isLowConfidence (some cell) = true ↔ cell.confianza < 85 / 100) ∧
    (∀ cell : MatrixCell, cell.confianza = 85 / 100 → isLowConfidence (some cell) = false) ∧
    (∀ cell : MatrixCell, cell.confianza = 84999 / 100000 →
      isLowConfidence (some cell) = true) ∧
    isLowConfidence none = false := by
  refine ⟨fun cell => by simp [isLowConfidence], fun cell h => ?_, fun cell h => ?_, rfl⟩
  · show decide (cell.confianza < 85 / 100) = false
    rw [h]
    exact decide_eq_false (lt_irrefl _)
  · show decide (cell.confianza < 85 / 100) = true
    rw [h]
    exact decide_eq_true (by norm_num)

/-- Witness for C8 at the two boundary confidences. -/
theorem c8_low_confidence_strict_threshold_witness :
    cellBoundary.confianza = 85 / 100 ∧ isLowConfidence (some cellBoundary) = false ∧
    cellLow.confianza = 84999 / 100000 ∧ isLowConfidence (some cellLow) = true :=
  ⟨rfl, c8_low_confidence_strict_threshold.2.1 cellBoundary rfl, rfl,
    c8_low_confidence_strict_threshold.2.2.1 cellLow rfl⟩

/-! ## Totality of the parser on garbage input (C9) -/

lemma skipSpaces_decomp : ∀ t : List Char,
    ∃ ws, t = ws ++ skipSpaces t ∧ ∀ c ∈ ws, isSpaceChar c = true := by
  intro t
  induction t with
  | nil => exact ⟨[], rfl, by simp⟩
  | cons c cs ih =>
    by_cases hc : isSpaceChar c = true
    · obtain ⟨ws, heq, hws⟩ := ih
      have hs : skipSpaces (c :: cs) = skipSpaces cs := by
        rw [skipSpaces, if_pos hc]
      refine ⟨c :: ws, ?_, ?_⟩
      · rw [hs, List.cons_append]
        exact congrArg (c :: ·) heq
      · intro x hx
        rcases List.mem_cons.mp hx with rfl | hx2
        · exact hc
        · exact hws x hx2
    · have hs : skipSpaces (c :: cs) = c :: cs := by
        rw [skipSpaces, if_neg hc]
      exact ⟨[], by rw [hs, List.nil_append], by simp⟩

lemma takeDigits_decomp : ∀ t : List Char,
    t = (takeDigits t).1 ++ (takeDigits t).2 ∧
    ∀ c ∈ (takeDigits t).1, isDigitChar c = true := by
  intro t
  induction t with
  | nil => exact ⟨rfl, by simp [takeDigits]⟩
  | cons c cs ih =>
    by_cases hc : isDigitChar c = true
    · have ht : takeDigits (c :: cs) = (c :: (takeDigits cs).1, (takeDigits cs).2) := by
        simp [takeDigits, hc]
      refine ⟨?_, ?_⟩
      · rw [ht, List.cons_append]
        exact congrArg (c :: ·) ih.1
      · intro x hx
        rw [ht] at hx
        rcases List.mem_cons.mp hx with rfl | hx2
        · exact hc
        · exact ih.2 x hx2
    · have ht : takeDigits (c :: cs) = ([], c :: cs) := by
        simp [takeDigits, hc]
      rw [ht]
      exact ⟨rfl, by simp⟩

lemma matchFila_sound {t : List Char} {n : Nat} (h : matchFila t = some n) :
    ∃ f i l a ws ds post, t = f :: i :: l :: a :: (ws ++ (ds ++ post)) ∧
      ciEq f 'f' = true ∧ ciEq i 'i' = true ∧ ciEq l 'l' = true ∧ ciEq a 'a' = true ∧
      (∀ c ∈ ws, isSpaceChar c = true) ∧ ds ≠ [] ∧ (∀ c ∈ ds, isDigitChar c = true) := by
  rcases t with _ | ⟨c1, _ | ⟨c2, _ | ⟨c3, _ | ⟨c4, rest⟩⟩⟩⟩
  · exact Option.noConfusion h
  · exact Option.noConfusion h
  · exact Option.noConfusion h
  · exact Option.noConfusion h
  by_cases hcond : (ciEq c1 'f' && ciEq c2 'i' && ciEq c3 'l' && ciEq c4 'a') = true
  case neg =>
    have hnone : matchFila (c1 :: c2 :: c3 :: c4 :: rest) = none := by
      rw [matchFila, if_neg hcond]
    rw [hnone] at h
    exact Option.noConfusion h
  case pos =>
    obtain ⟨⟨⟨h1, h2⟩, h3⟩, h4⟩ :
        ((ciEq c1 'f' = true ∧ ciEq c2 'i' = true) ∧ ciEq c3 'l' = true) ∧
          ciEq c4 'a' = true := by
      simpa [Bool.and_eq_true] using hcond
    obtain ⟨ws, hws_eq, hws⟩ := skipSpaces_decomp rest
    obtain ⟨hdec, hdig⟩ := takeDigits_decomp (skipSpaces rest)
    have hne : (takeDigits (skipSpaces rest)).1 ≠ [] := by
      intro hnil
      have hempty : ((takeDigits (skipSpaces rest)).1).isEmpty = true := by
        rw [hnil]; rfl
      have : matchFila (c1 :: c2 :: c3 :: c4 :: rest) = none := by
        rw [matchFila, if_pos hcond]
        simp only [hempty, if_true]
      rw [this] at h
      exact Option.noConfusion h
    refine ⟨c1, c2, c3, c4, ws, (takeDigits (skipSpaces rest)).1,
      (takeDigits (skipSpaces rest)).2, ?_, h1, h2, h3, h4, hws, hne, hdig⟩
    have : rest = ws ++ ((takeDigits (skipSpaces rest)).1 ++ (takeDigits (skipSpaces rest)).2) := by
      rw [← hdec]
      exact hws_eq
    rw [← this]

lemma findFila_sound : ∀ (s : List Char) (n : Nat),
    findFila s = some n → hasFilaPattern s := by
  intro s
  induction s with
  | nil => intro n h; exact Option.noConfusion h
  | cons c cs ih =>
    intro n h
    cases hm : matchFila (c :: cs) with
    | some m =>
      obtain ⟨f, i, l, a, ws, ds, post, heq, h1, h2, h3, h4, hws, hne, hds⟩ :=
        matchFila_sound hm
      exact ⟨[], f, i, l, a, ws, ds, post, by rw [List.nil_append]; exact heq,
        h1, h2, h3, h4, hws, hne, hds⟩
    | none =>
      have h2 : findFila cs = some n := by
        rw [findFila, hm] at h
        exact h
      obtain ⟨pre, f, i, l, a, ws, ds, post, heq, hp1, hp2, hp3, hp4, hws, hne, hds⟩ :=
        ih n h2
      exact ⟨c :: pre, f, i, l, a, ws, ds, post, by rw [List.cons_append, ← heq],
        hp1, hp2, hp3, hp4, hws, hne, hds⟩

lemma hasFilaPattern_length {s : List Char} (h : hasFilaPattern s) : 5 ≤ s.length := by
  obtain ⟨pre, f, i, l, a, ws, ds, post, heq, -, -, -, -, -, hne, -⟩ := h
  have hds : 1 ≤ ds.length := List.length_pos.mpr hne
  rw [heq]
  simp only [List.length_append, List.length_cons]
  omega

/-- C9: the row-label parser is total on garbage: a string input that
contains no occurrence of the `Fila N` pattern and is not a pure digit
string parses to the invalid sentinel `-1` (never an error). -/
theorem c9_parser_total_on_garbage :
    ∀ s : List Char, ¬ hasFilaPattern s →
    ¬(s ≠ [] ∧ ∀ c ∈ s, isDigitChar c = true) →
    parseRowIndex (RowLabel.str s) = -1 := by
  intro s hpat hdig
  cases hf : findFila s with
  | some n => exact absurd (findFila_sound s n hf) hpat
  | none =>
    have hcond : (!s.isEmpty && s.all isDigitChar) = false := by
      cases s with
      | nil => rfl
      | cons a tl =>
        have hall : (a :: tl).all isDigitChar = false := by
          cases hv : (a :: tl).all isDigitChar with
          | false => rfl
          | true =>
            exact absurd ⟨List.cons_ne_nil a tl, List.all_eq_true.mp hv⟩ hdig
        simp [hall]
    simp only [parseRowIndex, hf, hcond, Bool.false_eq_true, if_false]

/-- Witness for C9 at the concrete garbage label "ab". -/
theorem c9_parser_total_on_garbage_witness :
    ¬ hasFilaPattern ("ab".data) ∧
    ¬("ab".data ≠ [] ∧ ∀ c ∈ "ab".data, isDigitChar c = true) ∧
    parseRowIndex (RowLabel.str ("ab".data)) = -1 := by
  have h1 : ¬ hasFilaPattern ("ab".data) := by
    intro h
    exact absurd (hasFilaPattern_length h) (by decide)
  have h2 : ¬("ab".data ≠ [] ∧ ∀ c ∈ "ab".data, isDigitChar c = true) := by decide
  exact ⟨h1, h2, c9_parser_total_on_garbage ("ab".data) h1 h2⟩

end BlueGrid
